import Mathlib

/-!
Shallow embedding of the exonum-btc-anchoring schema and message layer
(src/service/schema.rs) and the parts of the RPC client (src/client.rs)
the verified claims refer to.

Storage tables (`ListTable`, `MerkleTable`, `MapTable` over the view) are
modelled as the per-key contents they hold: `signatures` maps a txid to the
ordered list of signature messages appended under it, `lects` maps a
validator index to its append-only LECT list, and `lect_indexes` maps a
validator index and a txid to an optional position.  A Rust panic
(out-of-bounds indexing, `unwrap` of `None`) is modelled by `Option`
with `none` as the panic outcome.  Machine integers are `Nat`;
cryptographic material (keys, txids, scripts, raw transactions) is byte
lists, with the externally defined cryptographic checks (`AnchoringTx::verify`,
`AnchoringConfig::redeem_script`) taken as parameters since they live
outside the excerpted sources.
-/

namespace BtcAnchoring

/-- A Bitcoin transaction id, 32 bytes in the real code. -/
abbrev TxId := List Nat

/-- A host-chain (Ed25519) public key, 32 bytes in the real code. -/
abbrev PublicKey := List Nat

/-- A Bitcoin public key used inside the redeem script. -/
abbrev BtcPublicKey := List Nat

/-- A multisig redeem script, as produced by `AnchoringConfig::redeem_script`. -/
abbrev RedeemScript := List Nat

/-- A raw Bitcoin transaction together with its txid (`BitcoinTx::id`). -/
structure BitcoinTx where
  txid : TxId
  raw : List Nat
deriving DecidableEq

/-- The `tx.id()` accessor of `BitcoinTx`. -/
def BitcoinTx.id (tx : BitcoinTx) : TxId := tx.txid

/-- An anchoring transaction (the `AnchoringTx` newtype over `BitcoinTx`). -/
structure AnchoringTx where
  txid : TxId
  raw : List Nat
deriving DecidableEq

/-- The `tx.id()` accessor of `AnchoringTx`. -/
def AnchoringTx.id (tx : AnchoringTx) : TxId := tx.txid

/-- The `Into<BitcoinTx>` conversion of `AnchoringTx`. -/
def AnchoringTx.toBitcoinTx (tx : AnchoringTx) : BitcoinTx := ⟨tx.txid, tx.raw⟩

/-- The anchoring configuration fields the schema code reads:
`cfg.validators` (ordered Bitcoin public keys) and `cfg.funding_tx`. -/
structure AnchoringConfig where
  validators : List BtcPublicKey
  funding_tx : BitcoinTx
deriving DecidableEq

/-- The `TxAnchoringSignature` message (schema.rs lines 20-32): sender key,
validator index (u32), referenced anchoring tx, input index (u32), raw
signature bytes.  The Rust field `from` is a Lean keyword, hence `from_pk`. -/
structure TxAnchoringSignature where
  from_pk : PublicKey
  validator : Nat
  tx : AnchoringTx
  input : Nat
  signature : List Nat
deriving DecidableEq

/-- The `TxAnchoringUpdateLatest` message (schema.rs lines 35-46): sender key,
validator index (u32), carried Bitcoin tx, LECT count (u64). -/
structure TxAnchoringUpdateLatest where
  from_pk : PublicKey
  validator : Nat
  tx : BitcoinTx
  lect_count : Nat
deriving DecidableEq

/-- The contents of the three anchoring tables of `AnchoringSchema`,
keyed the way the Rust tables are keyed. -/
structure SchemaState where
  signatures : TxId → List TxAnchoringSignature
  lects : Nat → List BitcoinTx
  lect_indexes : Nat → TxId → Option Nat

/-- A fresh view: every table is empty. -/
def emptyState : SchemaState :=
  ⟨fun _ => [], fun _ => [], fun _ _ => none⟩

/-- `schema.signatures(&txid).append(sig)` (the `ListTable::append` call of
`TxAnchoringSignature::execute`, schema.rs line 238). -/
def SchemaState.appendSignature (s : SchemaState) (txid : TxId)
    (sig : TxAnchoringSignature) : SchemaState :=
  { s with signatures := fun t =>
      if t = txid then s.signatures t ++ [sig] else s.signatures t }

/-- `AnchoringSchema::add_lect` (schema.rs lines 187-197): read the current
length of `lects(validator)` as `idx`, append `tx` to it, and put
`txid ↦ idx` into `lect_indexes(validator)`. -/
def add_lect (s : SchemaState) (validator : Nat) (tx : BitcoinTx) : SchemaState :=
  let idx := (s.lects validator).length
  let txid := tx.id
  { s with
    lects := fun v => if v = validator then s.lects v ++ [tx] else s.lects v,
    lect_indexes := fun v t =>
      if v = validator then
        (if t = txid then some idx else s.lect_indexes v t)
      else s.lect_indexes v t }

/-- `AnchoringSchema::create_genesis_config` (schema.rs lines 180-185):
`for idx in 0..cfg.validators.len() { add_lect(idx, cfg.funding_tx) }`. -/
def create_genesis_config (cfg : AnchoringConfig) (s : SchemaState) : SchemaState :=
  (List.range cfg.validators.length).foldl
    (fun st idx => add_lect st idx cfg.funding_tx) s

/-- `AnchoringSchema::lect` (schema.rs lines 199-201):
`lects(validator).last().map(|x| x.unwrap())`.  The `unwrap` of an empty
list is a panic, modelled by `none`. -/
def lect (s : SchemaState) (validator : Nat) : Option BitcoinTx :=
  (s.lects validator).getLast?

/-- `AnchoringSchema::prev_lect` (schema.rs lines 203-212). -/
def prev_lect (s : SchemaState) (validator : Nat) : Option BitcoinTx :=
  let idx := (s.lects validator).length
  if idx > 1 then (s.lects validator)[idx - 2]? else none

/-- `AnchoringSchema::find_lect_position` (schema.rs lines 214-219). -/
def find_lect_position (s : SchemaState) (validator : Nat) (txid : TxId) :
    Option Nat :=
  s.lect_indexes validator txid

/-- `TxAnchoringSignature::execute` (schema.rs lines 226-240).  The
redeem-script derivation and the signature check are the externally defined
`cfg.redeem_script()` and `AnchoringTx::verify`, passed as parameters
`redeemScriptOf` and `verify`; `cfg` is the active anchoring configuration
read from the chain state (`current_anchoring_config`).  The Rust code
indexes `cfg.validators[self.validator() as usize]` without a bounds check,
so an out-of-range validator index panics: modelled by `none`.  A failed
verification logs an error and returns `Ok(())` with no state change; a
successful one appends the message to `signatures(tx.id())`. -/
def TxAnchoringSignature.execute
    (redeemScriptOf : AnchoringConfig → RedeemScript)
    (verify : AnchoringTx → RedeemScript → Nat → BtcPublicKey → List Nat → Bool)
    (cfg : AnchoringConfig) (msg : TxAnchoringSignature) (s : SchemaState) :
    Option SchemaState :=
  match cfg.validators[msg.validator]? with
  | none => none
  | some pub_key =>
    if verify msg.tx (redeemScriptOf cfg) msg.input pub_key msg.signature then
      some (s.appendSignature msg.tx.id msg)
    else
      some s

/-- `TxAnchoringUpdateLatest::execute` (schema.rs lines 242-249): it calls
`add_lect(self.validator(), self.tx())` unconditionally; the `lect_count`
field is never read. -/
def TxAnchoringUpdateLatest.execute (msg : TxAnchoringUpdateLatest)
    (s : SchemaState) : SchemaState :=
  add_lect s msg.validator msg.tx

/-- The `AnchoringTransaction` enum (schema.rs lines 49-53). -/
inductive AnchoringTransaction where
  | Signature (msg : TxAnchoringSignature)
  | UpdateLatest (msg : TxAnchoringUpdateLatest)
deriving DecidableEq

/-- `pub const ANCHORING_SERVICE: u16 = 3` (schema.rs line 15). -/
def ANCHORING_SERVICE : Nat := 3

/-- `const ANCHORING_TRANSACTION_SIGNATURE: u16 = 0` (schema.rs line 16). -/
def ANCHORING_TRANSACTION_SIGNATURE : Nat := 0

/-- `const ANCHORING_TRANSACTION_LATEST: u16 = 1` (schema.rs line 17). -/
def ANCHORING_TRANSACTION_LATEST : Nat := 1

/-- A raw host-chain transaction as seen by `FromRaw`: its `message_type()`
(u16) and payload bytes. -/
structure RawTransaction where
  message_type : Nat
  body : List Nat
deriving DecidableEq

/-- The message decoding errors the dispatch code can produce.
`IncorrectMessageType` carries the offending type; `Malformed` stands for
the per-message decoding failures of the generated `from_raw` parsers. -/
inductive MessageError where
  | IncorrectMessageType (message_type : Nat)
  | Malformed (code : Nat)
deriving DecidableEq

/-- `AnchoringTransaction::from_raw` (schema.rs lines 111-123): dispatch on
`raw.message_type()`.  The macro-generated per-message decoders
`TxAnchoringSignature::from_raw` and `TxAnchoringUpdateLatest::from_raw`
are outside the excerpt, so they are parameters `sigFromRaw`/`updFromRaw`;
the `?` operator propagates their errors via `Except.map`. -/
def AnchoringTransaction.from_raw
    (sigFromRaw : RawTransaction → Except MessageError TxAnchoringSignature)
    (updFromRaw : RawTransaction → Except MessageError TxAnchoringUpdateLatest)
    (raw : RawTransaction) : Except MessageError AnchoringTransaction :=
  if raw.message_type = ANCHORING_TRANSACTION_SIGNATURE then
    (sigFromRaw raw).map AnchoringTransaction.Signature
  else if raw.message_type = ANCHORING_TRANSACTION_LATEST then
    (updFromRaw raw).map AnchoringTransaction.UpdateLatest
  else
    .error (.IncorrectMessageType raw.message_type)

/-- Apply one decoded anchoring message through its `execute` function
(the host chain's transaction application step for this service). -/
def applyTx (redeemScriptOf : AnchoringConfig → RedeemScript)
    (verify : AnchoringTx → RedeemScript → Nat → BtcPublicKey → List Nat → Bool)
    (cfg : AnchoringConfig) (s : SchemaState) :
    AnchoringTransaction → Option SchemaState
  | .Signature m => m.execute redeemScriptOf verify cfg s
  | .UpdateLatest m => some (m.execute s)

/-- Apply a sequence of anchoring messages in order, stopping at a panic. -/
def applySeq (redeemScriptOf : AnchoringConfig → RedeemScript)
    (verify : AnchoringTx → RedeemScript → Nat → BtcPublicKey → List Nat → Bool)
    (cfg : AnchoringConfig) (msgs : List AnchoringTransaction)
    (s : SchemaState) : Option SchemaState :=
  msgs.foldlM (fun st m => applyTx redeemScriptOf verify cfg st m) s

/-- Apply a sequence of raw `add_lect` operations (validator, tx). -/
def applyAddLects (s : SchemaState) (ops : List (Nat × BitcoinTx)) : SchemaState :=
  ops.foldl (fun st p => add_lect st p.1 p.2) s

/-- `BigEndian::write_u32`: the four big-endian bytes of a u32. -/
def writeU32BE (x : Nat) : List Nat :=
  [x / 2 ^ 24 % 256, x / 2 ^ 16 % 256, x / 2 ^ 8 % 256, x % 256]

/-- Read back a big-endian byte list as a natural number. -/
def readU32BE (bs : List Nat) : Nat :=
  bs.foldl (fun acc b => acc * 256 + b) 0

/-- The storage key of the `signatures` table (schema.rs lines 140-145):
`[&[ANCHORING_SERVICE as u8, 02], txid.as_ref()].concat()`. -/
def signaturesKey (txid : TxId) : List Nat :=
  [ANCHORING_SERVICE % 256, 2] ++ txid

/-- The storage key of the `lects` table (schema.rs lines 147-153):
`vec![ANCHORING_SERVICE as u8, 03, 0,0,0,0,0,0,0,0]` with
`BigEndian::write_u32(&mut prefix[2..], validator)`, i.e. the u32 validator
index written big-endian into bytes 2..6, the final four bytes left zero. -/
def lectsKey (validator : Nat) : List Nat :=
  [ANCHORING_SERVICE % 256, 3] ++ writeU32BE (validator % 2 ^ 32) ++ [0, 0, 0, 0]

/-- The storage key of the `lect_indexes` table (schema.rs lines 155-159),
identical to `lectsKey` except for discriminator byte `04`. -/
def lectIndexesKey (validator : Nat) : List Nat :=
  [ANCHORING_SERVICE % 256, 4] ++ writeU32BE (validator % 2 ^ 32) ++ [0, 0, 0, 0]

/-- The ids of the transactions of a LECT list. -/
def lectIds (l : List BitcoinTx) : List TxId := l.map BitcoinTx.id

/-- The index invariant of the schema at one validator: `lect_indexes v`
maps `txid` to `i` exactly when the `i`-th LECT of `v` has id `txid`. -/
def SchemaInvAt (s : SchemaState) (v : Nat) : Prop :=
  ∀ txid i, s.lect_indexes v txid = some i ↔
    ∃ tx, (s.lects v)[i]? = some tx ∧ tx.id = txid

/-- The index invariant at every validator. -/
def SchemaInv (s : SchemaState) : Prop := ∀ v, SchemaInvAt s v

/-- A sample Bitcoin transaction. -/
def txA : BitcoinTx := ⟨[170], [170, 1]⟩

/-- A second sample Bitcoin transaction with a different id. -/
def txB : BitcoinTx := ⟨[187], [187, 2]⟩

/-- A sample anchoring transaction. -/
def atxA : AnchoringTx := ⟨[204], [204, 3]⟩

/-- A sample configuration with a single validator key. -/
def cfg1 : AnchoringConfig := ⟨[[7]], txA⟩

/-- A redeem-script derivation that returns an empty script. -/
def roTriv : AnchoringConfig → RedeemScript := fun _ => []

/-- A verification oracle that accepts every signature. -/
def veTrue : AnchoringTx → RedeemScript → Nat → BtcPublicKey → List Nat → Bool :=
  fun _ _ _ _ _ => true

/-- A verification oracle that rejects every signature. -/
def veFalse : AnchoringTx → RedeemScript → Nat → BtcPublicKey → List Nat → Bool :=
  fun _ _ _ _ _ => false

/-- A sample signature message naming validator 0. -/
def msgSig0 : TxAnchoringSignature := ⟨[1], 0, atxA, 0, [9, 9]⟩

/-- A sample signature message naming the out-of-range validator 5. -/
def msgSig5 : TxAnchoringSignature := ⟨[1], 5, atxA, 0, [9, 9]⟩

/-- A sample `UpdateLatest` message whose `lect_count` (5) does not match
any post-append length reachable from the empty state. -/
def msgUpd : TxAnchoringUpdateLatest := ⟨[1], 0, txB, 5⟩

/-- A sample per-message decoder that always yields `msgSig0`. -/
def sdOk : RawTransaction → Except MessageError TxAnchoringSignature :=
  fun _ => .ok msgSig0

/-- A sample per-message decoder that always yields `msgUpd`. -/
def udOk : RawTransaction → Except MessageError TxAnchoringUpdateLatest :=
  fun _ => .ok msgUpd

/-- A raw transaction of message type 0. -/
def raw0 : RawTransaction := ⟨0, [1, 2]⟩

/-- A raw transaction of message type 1. -/
def raw1 : RawTransaction := ⟨1, [3, 4]⟩

/-- A raw transaction of the unknown message type 7. -/
def raw7 : RawTransaction := ⟨7, [5, 6]⟩

/-- Pointwise effect of `add_lect` on the `lects` table. -/
lemma add_lect_lects (s : SchemaState) (u : Nat) (tx : BitcoinTx) (v : Nat) :
    (add_lect s u tx).lects v =
      if v = u then s.lects v ++ [tx] else s.lects v := rfl

/-- Pointwise effect of `add_lect` on the `lect_indexes` table. -/
lemma add_lect_lect_indexes (s : SchemaState) (u : Nat) (tx : BitcoinTx)
    (v : Nat) (t : TxId) :
    (add_lect s u tx).lect_indexes v t =
      if v = u then
        (if t = tx.id then some (s.lects u).length else s.lect_indexes v t)
      else s.lect_indexes v t := rfl

/-- `add_lect` leaves the `signatures` table untouched. -/
lemma add_lect_signatures (s : SchemaState) (u : Nat) (tx : BitcoinTx) :
    (add_lect s u tx).signatures = s.signatures := rfl

/-- Appending one element and then a list equals prepending it to the list. -/
lemma concat_append_cons {α} (A : List α) (x : α) (r : List α) :
    (A ++ [x]) ++ r = A ++ (x :: r) := by
  rw [List.append_assoc]; rfl

/-- An index at which `getElem?` is defined lies below the length. -/
lemma lt_length_of_getElem?_some {α} {l : List α} {i : Nat} {a : α}
    (h : l[i]? = some a) : i < l.length :=
  (List.getElem?_eq_some.mp h).1

/-- An element found by `getElem?` is a member of the list. -/
lemma mem_of_getElem?_some {α} {l : List α} {i : Nat} {a : α}
    (h : l[i]? = some a) : a ∈ l := by
  obtain ⟨hn, hg⟩ := List.getElem?_eq_some.mp h
  exact hg ▸ List.getElem_mem hn

/-- Looking up a concatenated list at the old length finds the new element. -/
lemma getElem?_concat_self {α} (l : List α) (a : α) :
    (l ++ [a])[l.length]? = some a := by
  rw [List.getElem?_append_right (le_refl _)]
  simp

/-- The fold of `create_genesis_config` leaves validators at or above `n`
untouched. -/
lemma foldRange_addLect_lects_of_le (tx : BitcoinTx) :
    ∀ (n : Nat) (s : SchemaState) (v : Nat), n ≤ v →
      ((List.range n).foldl (fun st idx => add_lect st idx tx) s).lects v =
        s.lects v := by
  intro n
  induction n with
  | zero => intro s v _; rfl
  | succ n ih =>
    intro s v h
    rw [List.range_succ, List.foldl_append]
    simp only [List.foldl_cons, List.foldl_nil]
    rw [add_lect_lects, if_neg (by omega)]
    exact ih s v (by omega)

/-- The fold of `create_genesis_config` appends exactly one `tx` to each
validator below `n`. -/
lemma foldRange_addLect_lects_of_lt (tx : BitcoinTx) :
    ∀ (n : Nat) (s : SchemaState) (v : Nat), v < n →
      ((List.range n).foldl (fun st idx => add_lect st idx tx) s).lects v =
        s.lects v ++ [tx] := by
  intro n
  induction n with
  | zero => intro s v h; omega
  | succ n ih =>
    intro s v h
    rw [List.range_succ, List.foldl_append]
    simp only [List.foldl_cons, List.foldl_nil]
    rw [add_lect_lects]
    by_cases hv : v = n
    · rw [if_pos hv, foldRange_addLect_lects_of_le tx n s v hv.ge]
    · rw [if_neg hv]
      exact ih s v (by omega)

/-- `create_genesis_config` appends the funding transaction to the LECT list
of every validator of the configuration. -/
lemma create_genesis_config_lects_of_lt (cfg : AnchoringConfig) (s : SchemaState)
    (v : Nat) (hv : v < cfg.validators.length) :
    (create_genesis_config cfg s).lects v = s.lects v ++ [cfg.funding_tx] :=
  foldRange_addLect_lects_of_lt cfg.funding_tx cfg.validators.length s v hv

/-- The empty schema satisfies the index invariant. -/
lemma emptyState_inv : SchemaInv emptyState := by
  intro v txid i
  constructor
  · intro h
    exact absurd h (by simp [emptyState])
  · rintro ⟨tx, h, -⟩
    simp [emptyState] at h

/-- `add_lect` preserves the index invariant provided the appended
transaction's id is not already among the validator's LECT ids. -/
lemma add_lect_preserves_inv (s : SchemaState) (u : Nat) (tx : BitcoinTx)
    (hInv : SchemaInv s) (hfresh : tx.id ∉ lectIds (s.lects u)) :
    SchemaInv (add_lect s u tx) := by
  intro v txid i
  rw [add_lect_lect_indexes, add_lect_lects]
  by_cases hv : v = u
  · subst hv
    simp only [eq_self_iff_true, if_true]
    by_cases ht : txid = tx.id
    · subst ht
      simp only [eq_self_iff_true, if_true]
      constructor
      · intro h
        obtain rfl : (s.lects v).length = i := Option.some.inj h
        exact ⟨tx, getElem?_concat_self (s.lects v) tx, rfl⟩
      · rintro ⟨tx', hg, hid⟩
        rcases Nat.lt_trichotomy i (s.lects v).length with hi | hi | hi
        · rw [List.getElem?_append_left hi] at hg
          exact absurd (hid ▸ List.mem_map_of_mem BitcoinTx.id
            (mem_of_getElem?_some hg)) hfresh
        · rw [hi]
        · rw [List.getElem?_eq_none (by simp; omega)] at hg
          cases hg
    · simp only [if_neg ht]
      rw [hInv v txid i]
      constructor
      · rintro ⟨tx', hg, hid⟩
        exact ⟨tx', by
          rw [List.getElem?_append_left (lt_length_of_getElem?_some hg)]
          exact hg, hid⟩
      · rintro ⟨tx', hg, hid⟩
        have hlen : i < (s.lects v).length + 1 := by
          have := lt_length_of_getElem?_some hg
          simpa using this
        rcases Nat.lt_or_ge i (s.lects v).length with hi | hi
        · rw [List.getElem?_append_left hi] at hg
          exact ⟨tx', hg, hid⟩
        · obtain rfl : i = (s.lects v).length := by omega
          rw [getElem?_concat_self] at hg
          obtain rfl : tx = tx' := Option.some.inj hg
          exact absurd hid.symm ht
  · simp only [if_neg hv]
    exact hInv v txid i

/-- The fold of `add_lect` operations preserves the index invariant when,
for each validator, the ids already present plus the ids about to be
appended are distinct. -/
lemma applyAddLects_inv :
    ∀ (ops : List (Nat × BitcoinTx)) (s : SchemaState), SchemaInv s →
      (∀ v, (lectIds (s.lects v) ++
        (ops.filter (fun p => p.1 == v)).map (fun p => p.2.id)).Nodup) →
      SchemaInv (applyAddLects s ops) := by
  intro ops
  induction ops with
  | nil => intro s h _; exact h
  | cons p rest ih =>
    intro s hInv hnd
    obtain ⟨u, tx⟩ := p
    have hu : (lectIds (s.lects u) ++
        tx.id :: (rest.filter (fun p => p.1 == u)).map (fun p => p.2.id)).Nodup := by
      have h := hnd u
      simp only [List.filter_cons] at h
      rw [if_pos (by simp)] at h
      rw [List.map_cons] at h
      exact h
    have hfresh : tx.id ∉ lectIds (s.lects u) := fun hmem =>
      (List.nodup_append.mp hu).2.2 hmem (List.mem_cons_self _ _)
    show SchemaInv (applyAddLects (add_lect s u tx) rest)
    apply ih (add_lect s u tx) (add_lect_preserves_inv s u tx hInv hfresh)
    intro v
    rw [add_lect_lects]
    by_cases hv : v = u
    · subst hv
      rw [if_pos rfl]
      have hids : lectIds (s.lects v ++ [tx]) = lectIds (s.lects v) ++ [tx.id] := by
        simp [lectIds]
      rw [hids, concat_append_cons]
      exact hu
    · rw [if_neg hv]
      have hrest := hnd v
      rw [List.filter_cons] at hrest
      rw [if_neg (by simp; exact fun h => hv h.symm)] at hrest
      exact hrest

/-- Claim C5: `AnchoringTransaction::from_raw` decodes message type 0 to the
`Signature` variant and message type 1 to the `UpdateLatest` variant, and for
every other message type returns the `IncorrectMessageType` error carrying
that type, so an unknown-type message never reaches execution. -/
theorem from_raw_dispatch
    (sigFromRaw : RawTransaction → Except MessageError TxAnchoringSignature)
    (updFromRaw : RawTransaction → Except MessageError TxAnchoringUpdateLatest)
    (raw : RawTransaction) :
    (∀ m, raw.message_type = ANCHORING_TRANSACTION_SIGNATURE →
        sigFromRaw raw = .ok m →
        AnchoringTransaction.from_raw sigFromRaw updFromRaw raw =
          .ok (.Signature m)) ∧
    (∀ m, raw.message_type = ANCHORING_TRANSACTION_LATEST →
        updFromRaw raw = .ok m →
        AnchoringTransaction.from_raw sigFromRaw updFromRaw raw =
          .ok (.UpdateLatest m)) ∧
    (raw.message_type ≠ ANCHORING_TRANSACTION_SIGNATURE →
        raw.message_type ≠ ANCHORING_TRANSACTION_LATEST →
        AnchoringTransaction.from_raw sigFromRaw updFromRaw raw =
          .error (.IncorrectMessageType raw.message_type)) := by
  refine ⟨?_, ?_, ?_⟩
  · intro m h0 hok
    simp [AnchoringTransaction.from_raw, h0, hok, Except.map]
  · intro m h1 hok
    simp [AnchoringTransaction.from_raw, h1, hok, Except.map,
      ANCHORING_TRANSACTION_SIGNATURE, ANCHORING_TRANSACTION_LATEST]
  · intro h0 h1
    simp [AnchoringTransaction.from_raw, h0, h1]

/-- Witness for claim C5: type-0 and type-1 raws decode to the two variants
and the unknown type 7 is rejected with `IncorrectMessageType 7`. -/
theorem from_raw_dispatch_witness :
    AnchoringTransaction.from_raw sdOk udOk raw0 = .ok (.Signature msgSig0) ∧
    AnchoringTransaction.from_raw sdOk udOk raw1 = .ok (.UpdateLatest msgUpd) ∧
    AnchoringTransaction.from_raw sdOk udOk raw7 =
      .error (.IncorrectMessageType 7) :=
  ⟨(from_raw_dispatch sdOk udOk raw0).1 msgSig0 rfl rfl,
   (from_raw_dispatch sdOk udOk raw1).2.1 msgUpd rfl rfl,
   (from_raw_dispatch sdOk udOk raw7).2.2 (by decide) (by decide)⟩

/-- Claim C7: the storage key of `signatures` is the service tag byte 3,
discriminator byte 2, then the txid bytes; the keys of `lects` and
`lect_indexes` are the tag byte 3, discriminator 3 (resp. 4), then the
validator index as a 32-bit big-endian integer padded with zero bytes to the
8-byte field, recoverable from bytes 2..6 of the key. -/
theorem storage_key_layout (txid : TxId) (v : Nat) (hv : v < 2 ^ 32) :
    signaturesKey txid = 3 :: 2 :: txid ∧
    (lectsKey v).take 2 = [3, 3] ∧
    (lectIndexesKey v).take 2 = [3, 4] ∧
    (lectsKey v).length = 10 ∧
    (lectIndexesKey v).length = 10 ∧
    readU32BE (((lectsKey v).drop 2).take 4) = v ∧
    readU32BE (((lectIndexesKey v).drop 2).take 4) = v ∧
    (lectsKey v).drop 6 = [0, 0, 0, 0] ∧
    (lectIndexesKey v).drop 6 = [0, 0, 0, 0] := by
  have hm : v % 2 ^ 32 = v := Nat.mod_eq_of_lt hv
  refine ⟨rfl, rfl, rfl, rfl, rfl, ?_, ?_, rfl, rfl⟩ <;>
  · simp only [lectsKey, lectIndexesKey, writeU32BE, readU32BE,
      ANCHORING_SERVICE, hm, List.cons_append, List.nil_append,
      List.take_succ_cons, List.drop_succ_cons, List.drop_zero,
      List.take_zero, List.foldl_cons, List.foldl_nil]
    omega

/-- Witness for claim C7 at validator index 5 and txid `[1]`. -/
theorem storage_key_layout_witness :
    signaturesKey [1] = 3 :: 2 :: [1] :=
  (storage_key_layout [1] 5 (by decide)).1

/-- Claim C2 (amended): `TxAnchoringUpdateLatest::execute` never reads
`lect_count`; it unconditionally calls `add_lect(validator, tx)`, so the
result is independent of the `lect_count` field and delivering the same
message twice appends the carried transaction twice. -/
theorem update_latest_execute_ignores_lect_count
    (msg : TxAnchoringUpdateLatest) (s : SchemaState) :
    msg.execute s = add_lect s msg.validator msg.tx ∧
    (∀ c, TxAnchoringUpdateLatest.execute
        ⟨msg.from_pk, msg.validator, msg.tx, c⟩ s = msg.execute s) ∧
    (msg.execute (msg.execute s)).lects msg.validator =
      s.lects msg.validator ++ [msg.tx, msg.tx] := by
  refine ⟨rfl, fun c => rfl, ?_⟩
  simp [TxAnchoringUpdateLatest.execute, add_lect]

/-- Counterexample to claim C2 as stated: `msgUpd` carries `lect_count = 5`,
which differs from the post-append length 1 of `lects(0)` in the empty
state, yet `execute` still changes `lects(0)`, and a second delivery of the
very same message appends a duplicate LECT entry. -/
theorem update_latest_mismatch_still_appends :
    msgUpd.lect_count ≠ (emptyState.lects msgUpd.validator).length + 1 ∧
    (msgUpd.execute emptyState).lects msgUpd.validator ≠
      emptyState.lects msgUpd.validator ∧
    (msgUpd.execute (msgUpd.execute emptyState)).lects msgUpd.validator =
      [msgUpd.tx, msgUpd.tx] := by
  refine ⟨by decide, by decide, by decide⟩

/-- Claim C9: `TxAnchoringSignature::execute` indexes
`cfg.validators[validator]` with no bounds check, so it panics (modelled by
`none`) exactly when the message's validator index is out of range, and it
is total (returns `some`) whenever the index is in range. -/
theorem signature_execute_bounds
    (redeemScriptOf : AnchoringConfig → RedeemScript)
    (verify : AnchoringTx → RedeemScript → Nat → BtcPublicKey → List Nat → Bool)
    (cfg : AnchoringConfig) (msg : TxAnchoringSignature) (s : SchemaState) :
    (cfg.validators.length ≤ msg.validator →
      TxAnchoringSignature.execute redeemScriptOf verify cfg msg s = none) ∧
    (msg.validator < cfg.validators.length →
      (TxAnchoringSignature.execute redeemScriptOf verify cfg msg s).isSome
        = true) := by
  constructor
  · intro h
    have hnone : cfg.validators[msg.validator]? = none :=
      List.getElem?_eq_none h
    simp [TxAnchoringSignature.execute, hnone]
  · intro h
    have hsome : cfg.validators[msg.validator]? =
        some cfg.validators[msg.validator] := List.getElem?_eq_getElem h
    by_cases hve : verify msg.tx (redeemScriptOf cfg) msg.input
        cfg.validators[msg.validator] msg.signature <;>
      simp [TxAnchoringSignature.execute, hsome, hve]

/-- Witness for claim C9: validator index 5 against the single-validator
configuration panics, index 0 executes totally. -/
theorem signature_execute_bounds_witness :
    TxAnchoringSignature.execute roTriv veTrue cfg1 msgSig5 emptyState = none ∧
    (TxAnchoringSignature.execute roTriv veTrue cfg1 msgSig0 emptyState).isSome
      = true :=
  ⟨(signature_execute_bounds roTriv veTrue cfg1 msgSig5 emptyState).1 (by decide),
   (signature_execute_bounds roTriv veTrue cfg1 msgSig0 emptyState).2 (by decide)⟩

/-- Claim C10: `AnchoringSchema::lect` unwraps the last element of
`lects(v)`, so it panics (returns `none`) exactly when `lects(v)` is empty;
after an `add_lect` it yields the transaction just appended, and once
`create_genesis_config` has run for a configuration containing `v`, the
unwrap cannot fail and `lect(v)` is the most recently appended entry. -/
theorem lect_unwrap_spec (s : SchemaState) (v : Nat) :
    (lect s v = none ↔ s.lects v = []) ∧
    (∀ tx, lect (add_lect s v tx) v = some tx) ∧
    (∀ cfg : AnchoringConfig, v < cfg.validators.length →
      lect (create_genesis_config cfg s) v =
        some ((s.lects v ++ [cfg.funding_tx]).getLast (by simp))) ∧
    (∀ cfg : AnchoringConfig, v < cfg.validators.length → s.lects v = [] →
      lect (create_genesis_config cfg s) v = some cfg.funding_tx) := by
  refine ⟨?_, ?_, ?_, ?_⟩
  · simp [lect, List.getLast?_eq_none_iff]
  · intro tx
    rw [lect, add_lect_lects, if_pos rfl, List.getLast?_concat]
  · intro cfg hv
    rw [lect, create_genesis_config_lects_of_lt cfg s v hv,
      List.getLast?_eq_getLast _ (by simp)]
  · intro cfg hv he
    rw [lect, create_genesis_config_lects_of_lt cfg s v hv, he,
      List.nil_append]
    rfl

/-- Witness for claim C10: `lect` of a fresh view is the panic outcome, and
after the genesis configuration it is the funding transaction. -/
theorem lect_unwrap_spec_witness :
    lect emptyState 0 = none ∧
    lect (create_genesis_config cfg1 emptyState) 0 = some cfg1.funding_tx :=
  ⟨((lect_unwrap_spec emptyState 0).1).mpr rfl,
   (lect_unwrap_spec emptyState 0).2.2.2 cfg1 (by decide) rfl⟩

/-- Claim C4: `create_genesis_config(cfg)` appends `cfg.funding_tx` to
`lects(v)` for every validator index `v` below `cfg.validators.len()`, and
when the schema started with `lects(v)` empty the first entry of every such
`lects(v)` is the genesis funding transaction. -/
theorem create_genesis_config_spec (cfg : AnchoringConfig) (s : SchemaState)
    (v : Nat) (hv : v < cfg.validators.length) :
    (create_genesis_config cfg s).lects v = s.lects v ++ [cfg.funding_tx] ∧
    (s.lects v = [] →
      ((create_genesis_config cfg s).lects v).head? = some cfg.funding_tx) := by
  have h := create_genesis_config_lects_of_lt cfg s v hv
  exact ⟨h, fun he => by rw [h, he]; rfl⟩

/-- Witness for claim C4 on the single-validator configuration. -/
theorem create_genesis_config_spec_witness :
    (create_genesis_config cfg1 emptyState).lects 0 =
      emptyState.lects 0 ++ [cfg1.funding_tx] :=
  (create_genesis_config_spec cfg1 emptyState 0 (by decide)).1

/-- Claim C1: for a `TxAnchoringSignature` message whose validator index is
in range, `execute` returns success with the schema unchanged when the
carried signature fails verification against the redeem script with the key
at `cfg.validators[validator]` at the message's input index, and appends the
message to `signatures(tx.id())` — touching no other table and no other
signatures list — when verification succeeds. -/
theorem signature_execute_spec
    (redeemScriptOf : AnchoringConfig → RedeemScript)
    (verify : AnchoringTx → RedeemScript → Nat → BtcPublicKey → List Nat → Bool)
    (cfg : AnchoringConfig) (msg : TxAnchoringSignature) (s : SchemaState)
    (hv : msg.validator < cfg.validators.length) :
    (verify msg.tx (redeemScriptOf cfg) msg.input
        cfg.validators[msg.validator] msg.signature = false →
      TxAnchoringSignature.execute redeemScriptOf verify cfg msg s = some s) ∧
    (verify msg.tx (redeemScriptOf cfg) msg.input
        cfg.validators[msg.validator] msg.signature = true →
      TxAnchoringSignature.execute redeemScriptOf verify cfg msg s =
        some (s.appendSignature msg.tx.id msg) ∧
      (s.appendSignature msg.tx.id msg).signatures msg.tx.id =
        s.signatures msg.tx.id ++ [msg] ∧
      (∀ t, t ≠ msg.tx.id →
        (s.appendSignature msg.tx.id msg).signatures t = s.signatures t) ∧
      (s.appendSignature msg.tx.id msg).lects = s.lects ∧
      (s.appendSignature msg.tx.id msg).lect_indexes = s.lect_indexes) := by
  have hsome : cfg.validators[msg.validator]? =
      some cfg.validators[msg.validator] := List.getElem?_eq_getElem hv
  constructor
  · intro hve
    simp [TxAnchoringSignature.execute, hsome, hve]
  · intro hve
    refine ⟨by simp [TxAnchoringSignature.execute, hsome, hve], ?_, ?_, rfl, rfl⟩
    · simp [SchemaState.appendSignature]
    · intro t ht
      simp [SchemaState.appendSignature, ht]

/-- Witness for claim C1: with the all-rejecting oracle the state is
returned untouched; with the all-accepting oracle the message lands in
`signatures(tx.id())`. -/
theorem signature_execute_spec_witness :
    TxAnchoringSignature.execute roTriv veFalse cfg1 msgSig0 emptyState =
      some emptyState ∧
    TxAnchoringSignature.execute roTriv veTrue cfg1 msgSig0 emptyState =
      some (emptyState.appendSignature msgSig0.tx.id msgSig0) :=
  ⟨(signature_execute_spec roTriv veFalse cfg1 msgSig0 emptyState
      (by decide)).1 rfl,
   ((signature_execute_spec roTriv veTrue cfg1 msgSig0 emptyState
      (by decide)).2 rfl).1⟩

/-- Claim C6: applying the same sequence of anchoring messages through their
`execute` functions to two schema states that start identical yields
identical outcomes, and in particular equal `lects`, `signatures` and
`lect_indexes` tables (hence equal Merkle roots over `lects(v)`). -/
theorem execute_deterministic
    (redeemScriptOf : AnchoringConfig → RedeemScript)
    (verify : AnchoringTx → RedeemScript → Nat → BtcPublicKey → List Nat → Bool)
    (cfg : AnchoringConfig) (msgs : List AnchoringTransaction)
    (s1 s2 : SchemaState) (h : s1 = s2) :
    applySeq redeemScriptOf verify cfg msgs s1 =
      applySeq redeemScriptOf verify cfg msgs s2 ∧
    (∀ t1 t2, applySeq redeemScriptOf verify cfg msgs s1 = some t1 →
      applySeq redeemScriptOf verify cfg msgs s2 = some t2 →
      (∀ v, t1.lects v = t2.lects v) ∧
      (∀ txid, t1.signatures txid = t2.signatures txid) ∧
      (∀ v txid, t1.lect_indexes v txid = t2.lect_indexes v txid)) := by
  subst h
  refine ⟨rfl, ?_⟩
  intro t1 t2 h1 h2
  rw [h1] at h2
  cases Option.some.inj h2
  exact ⟨fun _ => rfl, fun _ => rfl, fun _ _ => rfl⟩

/-- Witness for claim C6 on a two-message sequence from the empty state. -/
theorem execute_deterministic_witness :
    applySeq roTriv veTrue cfg1
      [AnchoringTransaction.UpdateLatest msgUpd,
       AnchoringTransaction.Signature msgSig0] emptyState =
    applySeq roTriv veTrue cfg1
      [AnchoringTransaction.UpdateLatest msgUpd,
       AnchoringTransaction.Signature msgSig0] emptyState :=
  (execute_deterministic roTriv veTrue cfg1
    [AnchoringTransaction.UpdateLatest msgUpd,
     AnchoringTransaction.Signature msgSig0] emptyState emptyState rfl).1

/-- Claim C3 (amended): after any sequence of `add_lect` operations from the
empty schema in which, for each validator, the appended txids are pairwise
distinct, `lect_indexes(v)` maps the id of the `i`-th entry of `lects(v)` to
`i`; conversely it maps `txid` to `i` exactly when the `i`-th entry has id
`txid` (so the mapping is injective on indices and ids), and every position
below `lects(v).len` is hit — a bijection onto `[0, lects(v).len)`. -/
theorem add_lect_index_bijection (ops : List (Nat × BitcoinTx))
    (hnd : ∀ v, ((ops.filter (fun p => p.1 == v)).map
      (fun p => p.2.id)).Nodup) :
    (∀ v i tx, ((applyAddLects emptyState ops).lects v)[i]? = some tx →
      (applyAddLects emptyState ops).lect_indexes v tx.id = some i) ∧
    (∀ v txid i,
      (applyAddLects emptyState ops).lect_indexes v txid = some i ↔
      ∃ tx, ((applyAddLects emptyState ops).lects v)[i]? = some tx ∧
        tx.id = txid) ∧
    (∀ v i, i < ((applyAddLects emptyState ops).lects v).length →
      ∃ txid, (applyAddLects emptyState ops).lect_indexes v txid = some i) := by
  have hinv : SchemaInv (applyAddLects emptyState ops) := by
    apply applyAddLects_inv ops emptyState emptyState_inv
    intro v
    simpa [emptyState, lectIds] using hnd v
  refine ⟨?_, fun v txid i => hinv v txid i, ?_⟩
  · intro v i tx hg
    exact (hinv v tx.id i).mpr ⟨tx, hg, rfl⟩
  · intro v i hi
    exact ⟨(((applyAddLects emptyState ops).lects v).get ⟨i, hi⟩).id,
      (hinv v _ i).mpr ⟨_, List.getElem?_eq_getElem hi, rfl⟩⟩

/-- Witness for claim C3 (amended) on two distinct appends to validator 0. -/
theorem add_lect_index_bijection_witness :
    (applyAddLects emptyState [(0, txA), (0, txB)]).lect_indexes 0 txA.id =
      some 0 :=
  (add_lect_index_bijection [(0, txA), (0, txB)]
    (by
      intro v
      cases v with
      | zero => decide
      | succ n => simp [List.filter_cons, Nat.succ_ne_zero])).1 0 0 txA rfl

/-- Counterexample to claim C3 as stated: appending the same transaction
twice to validator 0 leaves entry 0 with id `txA.id` while `lect_indexes`
maps that id to position 1, so the claimed unconditional invariant
`lect_indexes(v)[lects(v)[i].id] == i` fails at `i = 0`. -/
theorem add_lect_duplicate_breaks_index :
    ((applyAddLects emptyState [(0, txA), (0, txA)]).lects 0)[0]? =
      some txA ∧
    (applyAddLects emptyState [(0, txA), (0, txA)]).lect_indexes 0 txA.id =
      some 1 ∧
    (applyAddLects emptyState [(0, txA), (0, txA)]).lect_indexes 0 txA.id ≠
      some 0 := by
  refine ⟨by decide, by decide, by decide⟩

end BtcAnchoring
